import Mathlib

/-!
Verification development for the Pepper plugin registry
(`chrome/common/pepper_plugin_registry.cc`).

Strings are embedded as lists of characters (`Str`) so that every
operation is a structurally recursive, kernel-evaluable function.
`SplitString` and `JoinString` model the `base::SplitString` /
`JoinString` helpers of the base library: `SplitString` cuts the input
at every occurrence of the separator (producing one piece more than the
number of separators, in particular a single empty piece for the empty
input) and trims ASCII whitespace from every piece.
-/

abbrev Str := List Char

/-- The ASCII whitespace set used by TrimWhitespace (kWhitespaceASCII). -/
def isWS (c : Char) : Bool :=
  c = ' ' || c = '\t' || c = '\n' || c = '\x0b' || c = '\x0c' || c = '\r'

/-- TrimWhitespace with TRIM_ALL: drop whitespace from both ends. -/
def trimWS (s : Str) : Str :=
  ((s.dropWhile isWS).reverse.dropWhile isWS).reverse

/-- Split at every occurrence of `sep`; the empty input yields one empty
piece, mirroring SplitStringT's loop over positions 0..size. -/
def splitOnChar (sep : Char) : Str → List Str
  | [] => [[]]
  | c :: rest =>
    if c = sep then
      [] :: splitOnChar sep rest
    else
      match splitOnChar sep rest with
      | [] => [[c]]
      | piece :: more => (c :: piece) :: more

/-- base::SplitString(str, sep, &result): split and trim each piece. -/
def SplitString (s : Str) (sep : Char) : List Str :=
  (splitOnChar sep s).map trimWS

/-- JoinString(parts, sep). -/
def JoinString (parts : List Str) (sep : Char) : Str :=
  match parts with
  | [] => []
  | p :: rest => p ++ rest.foldl (fun acc q => acc ++ sep :: q) []

/-- webkit::npapi::WebPluginMimeType as constructed here: a mime type,
a file extension and a description. -/
structure WebPluginMimeType where
  mime_type : Str
  file_extension : Str
  description : Str
deriving DecidableEq

/-- PepperPluginInfo. The default constructor leaves the strings empty
and sets `is_internal` and `is_out_of_process` to false. -/
structure PepperPluginInfo where
  path : Str := []
  name : Str := []
  description : Str := []
  version : Str := []
  mime_types : List WebPluginMimeType := []
  is_internal : Bool := false
  is_out_of_process : Bool := false
deriving DecidableEq

def kFlashPluginName : Str := ("Shockwave Flash").data

def kFlashPluginSwfMimeType : Str := ("application/x-shockwave-flash").data

def kFlashPluginSwfExtension : Str := ("swf").data

def kFlashPluginSwfDescription : Str := ("Shockwave Flash").data

def kFlashPluginSplMimeType : Str := ("application/futuresplash").data

def kFlashPluginSplExtension : Str := ("spl").data

def kFlashPluginSplDescription : Str := ("FutureSplash Player").data

/-- The dotted Pepper Flash version list: split on '.', replace a missing
or empty first component by "10", then pad with "2", "999", "999" while
fewer than 4 components are present. -/
def flashVersionNumbers (flash_version : Str) : List Str :=
  let v0 := SplitString flash_version '.'
  let v1 :=
    if v0.length < 1 then v0 ++ [("10").data]
    else if v0.headD [] = [] then ("10").data :: v0.tail
    else v0
  let v2 := if v1.length < 2 then v1 ++ [("2").data] else v1
  let v3 := if v2.length < 3 then v2 ++ [("999").data] else v2
  if v3.length < 4 then v3 ++ [("999").data] else v3

/-- The PepperPluginInfo built for the --ppapi-flash-path plugin. -/
def mkFlashPlugin (oop : Bool) (flash_path flash_version : Str) :
    PepperPluginInfo :=
  let nums := flashVersionNumbers flash_version
  { path := flash_path
    name := kFlashPluginName
    is_out_of_process := oop
    description := kFlashPluginName ++ (" ").data ++ nums.headD []
      ++ (".").data ++ nums.getD 1 [] ++ (" r").data ++ nums.getD 2 []
    version := JoinString nums '.'
    mime_types :=
      [⟨kFlashPluginSwfMimeType, kFlashPluginSwfExtension,
        kFlashPluginSwfDescription⟩,
       ⟨kFlashPluginSplMimeType, kFlashPluginSplExtension,
        kFlashPluginSplDescription⟩] }

/-- One --register-pepper-plugins entry once it has passed the
`parts.size() < 2` check: `parts[0]` is split on '#' into path, name,
description and version; every later part becomes a MIME type carrying
the plugin's description. -/
def mkPluginFromParts (oop : Bool) (parts : List Str) : PepperPluginInfo :=
  let name_parts := SplitString (parts.headD []) '#'
  let descr := name_parts.getD 2 []
  { path := name_parts.headD []
    name := name_parts.getD 1 []
    description := descr
    version := name_parts.getD 3 []
    is_out_of_process := oop
    mime_types := (parts.drop 1).map fun mt => ⟨mt, [], descr⟩ }

/-- One comma-delimited entry of the --register-pepper-plugins value:
split on ';'; an entry with fewer than 2 parts is rejected (DLOG and
continue), otherwise a plugin is built from the parts. -/
def parsePluginEntry (oop : Bool) (entry : Str) : Option PepperPluginInfo :=
  let parts := SplitString entry ';'
  if parts.length < 2 then none
  else some (mkPluginFromParts oop parts)

/-- The loop over the comma-delimited entries, with `continue` on a
rejected entry. -/
def parseEntries (oop : Bool) : List Str → List PepperPluginInfo
  | [] => []
  | entry :: rest =>
    match parsePluginEntry oop entry with
    | none => parseEntries oop rest
    | some plugin => plugin :: parseEntries oop rest

/-- ComputePluginsFromCommandLine, as a function of the command-line
inputs it reads: the process-wide out-of-process flag, the
--ppapi-flash-path and --ppapi-flash-version values, and the
--register-pepper-plugins value. A nonempty flash path contributes the
flash plugin first; an empty register value contributes nothing. -/
def ComputePluginsFromCommandLine (oop : Bool)
    (flash_path flash_version reg_value : Str) : List PepperPluginInfo :=
  let flash :=
    if flash_path = [] then [] else [mkFlashPlugin oop flash_path flash_version]
  if reg_value = [] then flash
  else flash ++ parseEntries oop (SplitString reg_value ',')

/-- PepperPluginRegistry::ComputeList. `ComputeBuiltInPlugins` depends on
the file system (PathService lookups and on-disk existence checks), so
the list of built-in plugins it appends is taken as a parameter; the
command-line plugins are appended after it. -/
def ComputeList (builtins : List PepperPluginInfo) (oop : Bool)
    (flash_path flash_version reg_value : Str) : List PepperPluginInfo :=
  builtins ++ ComputePluginsFromCommandLine oop flash_path flash_version reg_value

/-- PepperPluginRegistry::GetInfoForPlugin: linear scan of the plugin
list, first entry whose path matches wins. -/
def GetInfoForPlugin (plugin_list : List PepperPluginInfo) (path : Str) :
    Option PepperPluginInfo :=
  match plugin_list with
  | [] => none
  | p :: rest => if path = p.path then some p else GetInfoForPlugin rest path

/-! ### The registry state

A `PluginModule` (webkit::ppapi::PluginModule) is identified by the
pointer of the heap object; the embedding uses a natural number for that
identity (the registry constructor uses the loop index as the fresh
identity of the module it news up on that iteration).

`live_modules_` and `preloaded_modules_` are `std::map`s keyed by the
file path; they are embedded as association lists kept sorted by key
(lexicographic order on the characters), so that iteration order in the
embedding matches the key order iteration of `std::map`. -/

abbrev PluginModule := Nat

/-- Lexicographic order on paths, standing in for FilePath operator<. -/
def strLt : Str → Str → Bool
  | [], [] => false
  | [], _ :: _ => true
  | _ :: _, [] => false
  | a :: as, b :: bs => if a < b then true else if b < a then false else strLt as bs

/-- std::map insert-or-assign (`map[key] = value`), keeping keys sorted
and unique. -/
def mapInsert (l : List (Str × PluginModule)) (k : Str) (v : PluginModule) :
    List (Str × PluginModule) :=
  match l with
  | [] => [(k, v)]
  | (k2, v2) :: rest =>
    if strLt k k2 then (k, v) :: (k2, v2) :: rest
    else if k = k2 then (k, v) :: rest
    else (k2, v2) :: mapInsert rest k v

/-- std::map::find by key. -/
def mapFind (l : List (Str × PluginModule)) (k : Str) : Option PluginModule :=
  match l with
  | [] => none
  | (k2, v2) :: rest => if k = k2 then some v2 else mapFind rest k

/-- The brute-force search of PluginModuleDead: erase the first entry
(in map iteration order) whose value is the dead module; `none` when no
entry matches, which is the NOTREACHED branch. -/
def eraseValue (l : List (Str × PluginModule)) (m : PluginModule) :
    Option (List (Str × PluginModule)) :=
  match l with
  | [] => none
  | (k2, v2) :: rest =>
    if v2 = m then some rest
    else (eraseValue rest m).map (fun r => (k2, v2) :: r)

/-- Observable events of a registry run, used to state ordering facts
such as "registered in the live map before the load attempt". -/
inductive RegistryEvent where
  | addLive (path : Str) (m : PluginModule)
  | loadAttempt (internal : Bool) (m : PluginModule) (ok : Bool)
  | preloadInsert (path : Str) (m : PluginModule)
  | moduleDead (m : PluginModule)
deriving DecidableEq

/-- The module an event is about. -/
def evModule : RegistryEvent → Nat
  | .addLive _ m => m
  | .loadAttempt _ m _ => m
  | .preloadInsert _ m => m
  | .moduleDead m => m

structure RegistryState where
  plugin_list : List PepperPluginInfo := []
  live_modules : List (Str × PluginModule) := []
  preloaded_modules : List (Str × PluginModule) := []
  trace : List RegistryEvent := []
deriving DecidableEq

/-- PepperPluginRegistry::AddLiveModule: DCHECK that no entry for the
path exists (a failing DCHECK is the duplicate-registration
programming-error assertion, modelled as `none`), then insert. -/
def AddLiveModule (st : RegistryState) (path : Str) (m : PluginModule) :
    Option RegistryState :=
  if (mapFind st.live_modules path).isSome then none
  else some { st with
    live_modules := mapInsert st.live_modules path m
    trace := st.trace ++ [.addLive path m] }

/-- PepperPluginRegistry::GetLiveModule: lookup, NULL when absent. -/
def GetLiveModule (st : RegistryState) (path : Str) : Option PluginModule :=
  mapFind st.live_modules path

/-- PepperPluginRegistry::PluginModuleDead: erase the entry whose value
is the dead module; reaching the end of the map without a match is
NOTREACHED (modelled as `none`). -/
def PluginModuleDead (st : RegistryState) (dead : PluginModule) :
    Option RegistryState :=
  match eraseValue st.live_modules dead with
  | none => none
  | some l => some { st with
      live_modules := l
      trace := st.trace ++ [.moduleDead dead] }

/-- Modelled from the spec: webkit::ppapi::PluginModule's destructor is
not part of this translation unit; per the spec it "still
unconditionally attempts unregistration", i.e. a module whose last
strong reference is dropped calls PluginModuleDead on the registry. -/
def moduleDestroyed (st : RegistryState) (m : PluginModule) :
    Option RegistryState :=
  PluginModuleDead st m

/-- The result of the load attempt for one in-process plugin:
InitAsInternalPlugin for internal plugins, InitAsLibrary otherwise; both
are external collaborators, supplied as oracles. -/
def loadResult (initInt : PepperPluginInfo → Bool) (initLib : Str → Bool)
    (cur : PepperPluginInfo) : Bool :=
  if cur.is_internal then initInt cur else initLib cur.path

/-!
One iteration of the registry constructor loop for `plugin_list_[i]`.
Out-of-process plugins are skipped. Otherwise a fresh module (identity
`i`) is created and registered via AddLiveModule before the load
attempt; the load result is supplied by the oracles `initInt`
(PluginModule::InitAsInternalPlugin) and `initLib`
(PluginModule::InitAsLibrary), which are external collaborators. On
failure the `continue` drops the only strong reference, destroying the
module; PluginModule's destructor is not part of this translation unit,
so its behaviour is modelled from the spec: "its destructor still
unconditionally attempts unregistration", i.e. it calls
PluginModuleDead. On success the module is stored in the preloaded map.
-/
def constructorStep (initInt : PepperPluginInfo → Bool) (initLib : Str → Bool)
    (st : RegistryState) (i : Nat) (cur : PepperPluginInfo) :
    Option RegistryState :=
  if cur.is_out_of_process then some st
  else
    (AddLiveModule st cur.path i).bind fun st1 =>
      let ok := loadResult initInt initLib cur
      let st2 := { st1 with trace := st1.trace ++ [.loadAttempt cur.is_internal i ok] }
      if ok then
        some { st2 with
          preloaded_modules := mapInsert st2.preloaded_modules cur.path i
          trace := st2.trace ++ [.preloadInsert cur.path i] }
      else
        moduleDestroyed st2 i

/-- The constructor's `for` loop over `plugin_list_`. -/
def ctorLoop (initInt : PepperPluginInfo → Bool) (initLib : Str → Bool)
    (st : RegistryState) (i : Nat) :
    List PepperPluginInfo → Option RegistryState
  | [] => some st
  | cur :: rest =>
    match constructorStep initInt initLib st i cur with
    | none => none
    | some st1 => ctorLoop initInt initLib st1 (i + 1) rest

/-- PepperPluginRegistry::PepperPluginRegistry: compute the merged list
into `plugin_list_`, then run the preload loop over it. -/
def PepperPluginRegistryCtor (initInt : PepperPluginInfo → Bool)
    (initLib : Str → Bool) (builtins : List PepperPluginInfo) (oop : Bool)
    (flash_path flash_version reg_value : Str) : Option RegistryState :=
  let plugins := ComputeList builtins oop flash_path flash_version reg_value
  ctorLoop initInt initLib
    { plugin_list := plugins, live_modules := [], preloaded_modules := [],
      trace := [] } 0 plugins

/-- `preloaded_modules_.clear()`: destroy the owned modules in map
order. The registry holds the only strong reference to a preloaded
module, so each destruction drops the reference count to zero and (per
the spec's Module destructor contract) calls PluginModuleDead. -/
def clearPreloadedLoop (st : RegistryState) :
    List (Str × PluginModule) → Option RegistryState
  | [] => some st
  | (_, m) :: rest =>
    match moduleDestroyed st m with
    | none => none
    | some st1 => clearPreloadedLoop st1 rest

/-- PepperPluginRegistry::~PepperPluginRegistry: clear the preloaded
map first (cascading PluginModuleDead callbacks), then DCHECK that the
live map is empty (`none` models the failing assertion). -/
def registryDtor (st : RegistryState) : Option RegistryState :=
  match clearPreloadedLoop { st with preloaded_modules := [] }
      st.preloaded_modules with
  | none => none
  | some st1 => if st1.live_modules.isEmpty then some st1 else none

/-- The events a successful constructor iteration for `plugin_list_[i]`
appends to the trace. -/
def stepEvents (initInt : PepperPluginInfo → Bool) (initLib : Str → Bool)
    (i : Nat) (cur : PepperPluginInfo) : List RegistryEvent :=
  if cur.is_out_of_process then []
  else
    .addLive cur.path i ::
      .loadAttempt cur.is_internal i (loadResult initInt initLib cur) ::
      (if loadResult initInt initLib cur then [.preloadInsert cur.path i]
       else [.moduleDead i])

/-- The whole trace of a successful constructor loop starting at index
`i`. -/
def traceOf (initInt : PepperPluginInfo → Bool) (initLib : Str → Bool)
    (i : Nat) : List PepperPluginInfo → List RegistryEvent
  | [] => []
  | cur :: rest =>
    stepEvents initInt initLib i cur ++ traceOf initInt initLib (i + 1) rest

/-- The paths of the in-process (not out-of-process) plugins of a list,
in order: the keys the constructor loop registers in the live map. -/
def inProcPaths (l : List PepperPluginInfo) : List Str :=
  (l.filter (fun cur => !cur.is_out_of_process)).map (fun cur => cur.path)

/-- Modelled from the spec, as the amended padding rule: the raw version
string is split on '.'; an empty (or missing) first component is
replaced by "10"; the defaults "2", "999", "999" are appended only while
fewer than 4 components are present, so components beyond the fourth,
and empty components after the first, are kept. -/
def specPadVersion : List Str → List Str
  | [] => [("10").data, ("2").data, ("999").data, ("999").data]
  | [a] => [(if a = [] then ("10").data else a), ("2").data, ("999").data,
      ("999").data]
  | [a, b] => [(if a = [] then ("10").data else a), b, ("999").data,
      ("999").data]
  | [a, b, c] => [(if a = [] then ("10").data else a), b, c, ("999").data]
  | a :: rest => (if a = [] then ("10").data else a) :: rest

/-! ### Association-map lemmas -/

theorem strLt_irrefl (s : Str) : strLt s s = false := by
  induction s with
  | nil => rfl
  | cons c cs ih => simp [strLt, ih]

theorem mapFind_mapInsert_self (l : List (Str × PluginModule)) (k : Str)
    (v : PluginModule) : mapFind (mapInsert l k v) k = some v := by
  induction l with
  | nil => simp [mapInsert, mapFind]
  | cons e rest ih =>
    obtain ⟨k2, v2⟩ := e
    by_cases h2 : k = k2
    · subst h2
      simp [mapInsert, strLt_irrefl, mapFind]
    · by_cases h1 : strLt k k2
      · simp [mapInsert, h1, mapFind]
      · simp [mapInsert, h1, h2, mapFind, ih]

theorem mapFind_mapInsert_ne (l : List (Str × PluginModule)) (k q : Str)
    (v : PluginModule) (hq : q ≠ k) :
    mapFind (mapInsert l k v) q = mapFind l q := by
  induction l with
  | nil => simp [mapInsert, mapFind, hq]
  | cons e rest ih =>
    obtain ⟨k2, v2⟩ := e
    by_cases h2 : k = k2
    · subst h2
      simp [mapInsert, strLt_irrefl, mapFind, hq]
    · by_cases h1 : strLt k k2
      · simp [mapInsert, h1, mapFind, hq]
      · simp [mapInsert, h1, h2, mapFind, ih]

theorem mapFind_eq_none_iff (l : List (Str × PluginModule)) (k : Str) :
    mapFind l k = none ↔ ∀ e ∈ l, e.1 ≠ k := by
  induction l with
  | nil => simp [mapFind]
  | cons e rest ih =>
    obtain ⟨k2, v2⟩ := e
    by_cases h2 : k = k2
    · subst h2
      constructor
      · intro h
        simp [mapFind] at h
      · intro h
        exact absurd rfl (h (k, v2) (by simp))
    · simp only [mapFind]
      rw [if_neg h2, ih]
      constructor
      · intro h e he
        rcases List.mem_cons.mp he with h3 | h3
        · simp [h3]
          exact fun h4 => h2 h4.symm
        · exact h e h3
      · intro h e he
        exact h e (List.mem_cons_of_mem _ he)

theorem mem_mapInsert (l : List (Str × PluginModule)) (k : Str)
    (v : PluginModule) (e : Str × PluginModule) (he : e ∈ mapInsert l k v) :
    e ∈ l ∨ e = (k, v) := by
  induction l with
  | nil =>
    simp [mapInsert] at he
    simp [he]
  | cons f rest ih =>
    obtain ⟨k2, v2⟩ := f
    by_cases h2 : k = k2
    · subst h2
      simp [mapInsert, strLt_irrefl] at he
      rcases he with h | h
      · exact Or.inr (by simp [h])
      · exact Or.inl (List.mem_cons_of_mem _ h)
    · by_cases h1 : strLt k k2
      · simp [mapInsert, h1] at he
        rcases he with h | h | h
        · exact Or.inr (by simp [h])
        · exact Or.inl (by simp [h])
        · exact Or.inl (List.mem_cons_of_mem _ h)
      · simp [mapInsert, h1, h2] at he
        rcases he with h | h
        · exact Or.inl (by simp [h])
        · rcases ih h with h3 | h3
          · exact Or.inl (List.mem_cons_of_mem _ h3)
          · exact Or.inr h3

theorem eraseValue_mapInsert (l : List (Str × PluginModule)) (k : Str)
    (v : PluginModule) (hk : mapFind l k = none)
    (hv : ∀ e ∈ l, e.2 ≠ v) :
    eraseValue (mapInsert l k v) v = some l := by
  induction l with
  | nil => simp [mapInsert, eraseValue]
  | cons e rest ih =>
    obtain ⟨k2, v2⟩ := e
    by_cases h2 : k = k2
    · simp [mapFind, h2] at hk
    · have hk' : mapFind rest k = none := by
        simpa [mapFind, h2] using hk
      have hv2 : v2 ≠ v := hv (k2, v2) (by simp)
      by_cases h1 : strLt k k2
      · simp [mapInsert, h1, eraseValue]
      · simp [mapInsert, h1, h2, eraseValue, hv2,
          ih hk' (fun e he => hv e (List.mem_cons_of_mem _ he))]

theorem eraseValue_eq_none_iff (l : List (Str × PluginModule))
    (m : PluginModule) : eraseValue l m = none ↔ ∀ e ∈ l, e.2 ≠ m := by
  induction l with
  | nil => simp [eraseValue]
  | cons e rest ih =>
    obtain ⟨k2, v2⟩ := e
    by_cases h : v2 = m
    · simp [eraseValue, h]
    · simp [eraseValue, h, ih]

theorem eraseValue_first (l1 l2 : List (Str × PluginModule)) (k : Str)
    (m : PluginModule) (h1 : ∀ e ∈ l1, e.2 ≠ m) :
    eraseValue (l1 ++ (k, m) :: l2) m = some (l1 ++ l2) := by
  induction l1 with
  | nil => simp [eraseValue]
  | cons e rest ih =>
    obtain ⟨k2, v2⟩ := e
    have hv2 : v2 ≠ m := h1 (k2, v2) (by simp)
    simp [eraseValue, hv2, ih (fun e he => h1 e (List.mem_cons_of_mem _ he))]

/-! ### C1, C4, C3: live-map bookkeeping and teardown -/

/-- C1: for every path p and module m, if the live map already holds an
entry keyed by p then AddLiveModule(p, m) hits the duplicate-registration
DCHECK (the fatal programming-error assertion, modelled as `none`);
otherwise it inserts m keyed by p, and a second AddLiveModule for the
same path with no intervening PluginModuleDead then assert-fails. -/
theorem C1_addLiveModule_unique (st : RegistryState) (p : Str)
    (m : PluginModule) :
    ((GetLiveModule st p).isSome → AddLiveModule st p m = none) ∧
    (GetLiveModule st p = none →
      ∃ st1, AddLiveModule st p m = some st1 ∧
        st1.live_modules = mapInsert st.live_modules p m ∧
        GetLiveModule st1 p = some m ∧
        ∀ m2, AddLiveModule st1 p m2 = none) := by
  constructor
  · intro h
    unfold GetLiveModule at h
    simp [AddLiveModule, h]
  · intro h
    unfold GetLiveModule at h
    refine ⟨{ st with live_modules := mapInsert st.live_modules p m, trace := st.trace ++ [.addLive p m] }, ?_, rfl, ?_, ?_⟩
    · simp [AddLiveModule, h]
    · simpa [GetLiveModule] using mapFind_mapInsert_self st.live_modules p m
    · intro m2
      simp [AddLiveModule, mapFind_mapInsert_self]

/-- Witness for C1: on an empty registry, registering path "/a" succeeds
and a second registration for "/a" assert-fails. -/
theorem C1_addLiveModule_unique_witness :
    ∃ st1, AddLiveModule { } (("/a").data) 0 = some st1 ∧
      st1.live_modules = mapInsert ({ } : RegistryState).live_modules
        (("/a").data) 0 ∧
      GetLiveModule st1 (("/a").data) = some 0 ∧
      ∀ m2, AddLiveModule st1 (("/a").data) m2 = none :=
  (C1_addLiveModule_unique { } (("/a").data) 0).2 rfl

/-- C4: PluginModuleDead scans the live map in iteration order for the
entry whose value is the dead module and removes exactly that entry,
leaving every other entry and the other registry fields unchanged; when
no entry holds the module it reaches the NOTREACHED assertion. -/
theorem C4_pluginModuleDead (st : RegistryState) (m : PluginModule) :
    ((∀ e ∈ st.live_modules, e.2 ≠ m) → PluginModuleDead st m = none) ∧
    (∀ l1 k l2, st.live_modules = l1 ++ (k, m) :: l2 →
      (∀ e ∈ l1, e.2 ≠ m) →
      ∃ st1, PluginModuleDead st m = some st1 ∧
        st1.live_modules = l1 ++ l2 ∧
        st1.preloaded_modules = st.preloaded_modules ∧
        st1.plugin_list = st.plugin_list) := by
  constructor
  · intro h
    simp [PluginModuleDead, (eraseValue_eq_none_iff _ _).mpr h]
  · intro l1 k l2 hsplit h1
    have he : eraseValue st.live_modules m = some (l1 ++ l2) := by
      rw [hsplit]
      exact eraseValue_first l1 l2 k m h1
    exact ⟨{ st with live_modules := l1 ++ l2, trace := st.trace ++ [.moduleDead m] },
      by simp [PluginModuleDead, he], rfl, rfl, rfl⟩

/-- Witness for C4: removing module 1 from a two-entry live map removes
exactly its entry and keeps the entry of module 0. -/
theorem C4_pluginModuleDead_witness :
    ∃ st1,
      PluginModuleDead
        { live_modules := [(("/a").data, 0), (("/b").data, 1)] } 1 =
        some st1 ∧
      st1.live_modules = [(("/a").data, 0)] ++ [] ∧
      st1.preloaded_modules =
        ({ live_modules := [(("/a").data, 0), (("/b").data, 1)] } :
          RegistryState).preloaded_modules ∧
      st1.plugin_list =
        ({ live_modules := [(("/a").data, 0), (("/b").data, 1)] } :
          RegistryState).plugin_list :=
  (C4_pluginModuleDead
      { live_modules := [(("/a").data, 0), (("/b").data, 1)] } 1).2
    [(("/a").data, 0)] (("/b").data) [] (by decide) (by decide)

/-- Clearing the preloaded map drains a live map that holds exactly the
same entries: each cascaded destruction erases its own head entry. -/
theorem clearPreloadedLoop_drain (pre : List (Str × PluginModule)) :
    ∀ st : RegistryState, st.live_modules = pre →
      ∃ st1, clearPreloadedLoop st pre = some st1 ∧
        st1.live_modules = [] ∧
        st1.preloaded_modules = st.preloaded_modules ∧
        st1.plugin_list = st.plugin_list := by
  induction pre with
  | nil =>
    intro st h
    exact ⟨st, rfl, h, rfl, rfl⟩
  | cons e rest ih =>
    intro st h
    obtain ⟨k, m⟩ := e
    have he : eraseValue st.live_modules m = some rest := by
      rw [h]
      simp [eraseValue]
    obtain ⟨st1, hloop, hlive, hpre, hpl⟩ :=
      ih { st with live_modules := rest, trace := st.trace ++ [.moduleDead m] } rfl
    exact ⟨st1,
      by simp [clearPreloadedLoop, moduleDestroyed, PluginModuleDead, he, hloop],
      hlive, hpre, hpl⟩

/-- C3: teardown clears the preloaded (owned) map first; the cascading
module destructions invoke PluginModuleDead and drain the live map, so
the final DCHECK passes, both maps end empty, and GetLiveModule returns
"not found" for every path afterwards. The hypothesis is the state the
constructor establishes: the live map holds exactly the preloaded
entries (the registry is the sole owner of the preloaded modules). -/
theorem C3_teardown (st : RegistryState)
    (h : st.live_modules = st.preloaded_modules) :
    ∃ st1, registryDtor st = some st1 ∧ st1.live_modules = [] ∧
      st1.preloaded_modules = [] ∧ ∀ p, GetLiveModule st1 p = none := by
  obtain ⟨st1, hloop, hlive, hpre, _⟩ :=
    clearPreloadedLoop_drain st.preloaded_modules
      { st with preloaded_modules := [] } (by simpa using h)
  refine ⟨st1, ?_, hlive, by simpa using hpre, ?_⟩
  · simp [registryDtor, hloop, hlive]
  · intro p
    simp [GetLiveModule, hlive, mapFind]

/-- Witness for C3: tearing down a registry whose single module was
preloaded at path "/a" empties both maps and the later lookup of "/a"
(and any other path) reports "not found". -/
theorem C3_teardown_witness :
    ∃ st1,
      registryDtor { live_modules := [(("/a").data, 0)]
                     preloaded_modules := [(("/a").data, 0)] } = some st1 ∧
      st1.live_modules = [] ∧ st1.preloaded_modules = [] ∧
      ∀ p, GetLiveModule st1 p = none :=
  C3_teardown
    { live_modules := [(("/a").data, 0)]
      preloaded_modules := [(("/a").data, 0)] } rfl

/-! ### C5: merged-list order and first-match lookup -/

theorem getInfoForPlugin_eq_some (l : List PepperPluginInfo) (p : Str)
    (d : PepperPluginInfo) (h : GetInfoForPlugin l p = some d) :
    d ∈ l ∧ d.path = p := by
  induction l with
  | nil => simp [GetInfoForPlugin] at h
  | cons e rest ih =>
    by_cases h2 : p = e.path
    · simp [GetInfoForPlugin, h2] at h
      subst h
      exact ⟨List.mem_cons_self _ _, h2.symm⟩
    · simp [GetInfoForPlugin, h2] at h
      obtain ⟨hm, hp⟩ := ih h
      exact ⟨List.mem_cons_of_mem _ hm, hp⟩

theorem getInfoForPlugin_eq_none_iff (l : List PepperPluginInfo) (p : Str) :
    GetInfoForPlugin l p = none ↔ ∀ d ∈ l, d.path ≠ p := by
  induction l with
  | nil => simp [GetInfoForPlugin]
  | cons e rest ih =>
    by_cases h2 : p = e.path
    · constructor
      · intro h
        simp [GetInfoForPlugin, h2] at h
      · intro h
        exact absurd h2.symm (h e (List.mem_cons_self _ _))
    · simp only [GetInfoForPlugin]
      rw [if_neg h2, ih]
      constructor
      · intro h d hd
        rcases List.mem_cons.mp hd with h3 | h3
        · subst h3
          exact fun h4 => h2 h4.symm
        · exact h d h3
      · intro h d hd
        exact h d (List.mem_cons_of_mem _ hd)

theorem getInfoForPlugin_append_some (l1 l2 : List PepperPluginInfo)
    (p : Str) (d : PepperPluginInfo) (h : GetInfoForPlugin l1 p = some d) :
    GetInfoForPlugin (l1 ++ l2) p = some d := by
  induction l1 with
  | nil => simp [GetInfoForPlugin] at h
  | cons e rest ih =>
    by_cases h2 : p = e.path
    · simp [GetInfoForPlugin, h2] at h ⊢
      exact h
    · simp [GetInfoForPlugin, h2] at h ⊢
      exact ih h

theorem getInfoForPlugin_first (l1 l2 : List PepperPluginInfo) (p : Str)
    (d : PepperPluginInfo) (hd : d.path = p) (h1 : ∀ e ∈ l1, e.path ≠ p) :
    GetInfoForPlugin (l1 ++ d :: l2) p = some d := by
  induction l1 with
  | nil => simp [GetInfoForPlugin, hd.symm]
  | cons e rest ih =>
    have he : p ≠ e.path := fun h => h1 e (List.mem_cons_self _ _) h.symm
    simp only [List.cons_append, GetInfoForPlugin]
    rw [if_neg he]
    exact ih (fun e he2 => h1 e (List.mem_cons_of_mem _ he2))

/-- C5: the merged Descriptor list puts all built-in entries before all
command-line entries; GetInfoForPlugin is a linear scan returning the
first Descriptor whose path equals the requested one (or "not found"
exactly when no entry matches); hence when a built-in and a command-line
entry share a path, the built-in Descriptor is returned. -/
theorem C5_lookup_precedence (builtins : List PepperPluginInfo) (oop : Bool)
    (fp fv rv : Str) (p : Str) :
    ComputeList builtins oop fp fv rv =
      builtins ++ ComputePluginsFromCommandLine oop fp fv rv ∧
    (∀ l1 d l2, ComputeList builtins oop fp fv rv = l1 ++ d :: l2 →
      d.path = p → (∀ e ∈ l1, e.path ≠ p) →
      GetInfoForPlugin (ComputeList builtins oop fp fv rv) p = some d) ∧
    (GetInfoForPlugin (ComputeList builtins oop fp fv rv) p = none ↔
      ∀ d ∈ ComputeList builtins oop fp fv rv, d.path ≠ p) ∧
    ((∃ b ∈ builtins, b.path = p) →
      GetInfoForPlugin (ComputeList builtins oop fp fv rv) p =
        GetInfoForPlugin builtins p ∧
      ∃ d, GetInfoForPlugin builtins p = some d ∧ d ∈ builtins ∧
        d.path = p) := by
  refine ⟨rfl, ?_, getInfoForPlugin_eq_none_iff _ _, ?_⟩
  · intro l1 d l2 hsplit hd h1
    rw [hsplit]
    exact getInfoForPlugin_first l1 l2 p d hd h1
  · intro hb
    obtain ⟨b, hbm, hbp⟩ := hb
    have hns : ¬ GetInfoForPlugin builtins p = none := by
      rw [getInfoForPlugin_eq_none_iff]
      intro h
      exact h b hbm hbp
    obtain ⟨d, hd⟩ := Option.ne_none_iff_exists'.mp hns
    obtain ⟨hdm, hdp⟩ := getInfoForPlugin_eq_some builtins p d hd
    refine ⟨?_, d, hd, hdm, hdp⟩
    rw [show ComputeList builtins oop fp fv rv =
      builtins ++ ComputePluginsFromCommandLine oop fp fv rv from rfl]
    rw [getInfoForPlugin_append_some builtins _ p d hd, hd]

/-- Witness for C5: a built-in at path "/a/b" and a command-line entry
at the same path; lookup returns the built-in. -/
theorem C5_lookup_precedence_witness :
    GetInfoForPlugin
      (ComputeList [{ path := ("/a/b").data, name := ("Builtin").data }]
        false [] [] (("/a/b#Foo;text/x-foo").data)) (("/a/b").data) =
      GetInfoForPlugin [{ path := ("/a/b").data, name := ("Builtin").data }]
        (("/a/b").data) ∧
    ∃ d, GetInfoForPlugin
        [{ path := ("/a/b").data, name := ("Builtin").data }]
        (("/a/b").data) = some d ∧
      d ∈ [({ path := ("/a/b").data, name := ("Builtin").data } :
        PepperPluginInfo)] ∧
      d.path = ("/a/b").data :=
  (C5_lookup_precedence [{ path := ("/a/b").data, name := ("Builtin").data }]
      false [] [] (("/a/b#Foo;text/x-foo").data) (("/a/b").data)).2.2.2
    ⟨{ path := ("/a/b").data, name := ("Builtin").data }, by decide, rfl⟩

/-! ### C6, C7, C8, C9, C10: the command-line descriptor parser -/

/-- C6: the specification string "/a/b#Foo#Desc#1.2.3;text/x-foo" yields
exactly one Descriptor with path /a/b, name Foo, description Desc,
version 1.2.3 and one MIME type text/x-foo whose description is Desc. -/
theorem C6_parse_example :
    ComputePluginsFromCommandLine false [] []
      (("/a/b#Foo#Desc#1.2.3;text/x-foo").data) =
      [{ path := ("/a/b").data, name := ("Foo").data,
         description := ("Desc").data, version := ("1.2.3").data,
         mime_types := [⟨("text/x-foo").data, [], ("Desc").data⟩] }] := by
  decide

/-- C7: an entry that splits on ';' into fewer than 2 parts is rejected
and contributes no Descriptor while the remaining entries still parse
(the parser is total and never aborts the whole spec); in particular the
one-entry spec "/a/b" yields zero Descriptors. -/
theorem C7_bad_entry_rejected (oop : Bool) :
    (∀ entry, (SplitString entry ';').length < 2 →
      parsePluginEntry oop entry = none) ∧
    (∀ pre post bad, (SplitString bad ';').length < 2 →
      parseEntries oop (pre ++ bad :: post) = parseEntries oop (pre ++ post)) ∧
    ComputePluginsFromCommandLine oop [] [] (("/a/b").data) = [] := by
  have h1 : ∀ entry, (SplitString entry ';').length < 2 →
      parsePluginEntry oop entry = none := by
    intro entry h
    simp [parsePluginEntry, h]
  refine ⟨h1, ?_, ?_⟩
  · intro pre post bad hbad
    induction pre with
    | nil => simp [parseEntries, h1 bad hbad]
    | cons e rest ih =>
      cases hpe : parsePluginEntry oop e <;>
        simp [parseEntries, hpe, ih]
  · have hsplit : SplitString (("/a/b").data) ',' = [("/a/b").data] := by
      decide
    have hne : ¬ (("/a/b").data = ([] : Str)) := by decide
    have hb : parsePluginEntry oop (("/a/b").data) = none :=
      h1 _ (by decide)
    have hcp : ComputePluginsFromCommandLine oop [] [] (("/a/b").data) =
        parseEntries oop (SplitString (("/a/b").data) ',') := by
      simp [ComputePluginsFromCommandLine, hne]
    rw [hcp, hsplit]
    simp [parseEntries, hb]

/-- Witness for C7: dropping the MIME-less entry "/a/b" from the middle
of a spec leaves the parse of the surrounding entries unchanged. -/
theorem C7_bad_entry_rejected_witness :
    parseEntries false ([("a;m").data] ++ ("/a/b").data :: [("c;n").data]) =
      parseEntries false ([("a;m").data] ++ [("c;n").data]) :=
  (C7_bad_entry_rejected false).2.1 [("a;m").data] [("c;n").data]
    (("/a/b").data) (by decide)

/-- C8: the Pepper Flash version padding maps "" to 10.2.999.999, "11"
to 11.2.999.999 and "11.5" to 11.5.999.999. -/
theorem C8_flash_version_padding :
    ((ComputePluginsFromCommandLine false (("/f").data) [] []).headD
      { }).version = ("10.2.999.999").data ∧
    ((ComputePluginsFromCommandLine false (("/f").data) (("11").data)
      []).headD { }).version = ("11.2.999.999").data ∧
    ((ComputePluginsFromCommandLine false (("/f").data) (("11.5").data)
      []).headD { }).version = ("11.5.999.999").data := by
  decide

/-- C9 counterexample: the raw version "1..3.4.5" keeps all five
dot-separated components (and its empty second component), so the
resulting Descriptor's version does not have exactly 4 components. -/
theorem C9_version_padding_cex :
    (((ComputePluginsFromCommandLine false (("/f").data)
        (("1..3.4.5").data) []).headD { }).version = ("1..3.4.5").data) ∧
    (SplitString (((ComputePluginsFromCommandLine false (("/f").data)
        (("1..3.4.5").data) []).headD { }).version) '.').length = 5 ∧
    ¬ (SplitString (((ComputePluginsFromCommandLine false (("/f").data)
        (("1..3.4.5").data) []).headD { }).version) '.').length = 4 := by
  decide

theorem flashVersionNumbers_eq_specPadVersion (fv : Str) :
    flashVersionNumbers fv = specPadVersion (SplitString fv '.') := by
  unfold flashVersionNumbers specPadVersion
  generalize SplitString fv '.' = s
  rcases s with _ | ⟨a, _ | ⟨b, _ | ⟨c, _ | ⟨d, rest⟩⟩⟩⟩
  · simp
  · by_cases ha : a = [] <;> simp [ha]
  · by_cases ha : a = [] <;> simp [ha]
  · by_cases ha : a = [] <;> simp [ha]
  · have h2 : ¬ (rest.length + 1 + 1 + 1 + 1 < 2) := by omega
    have h3 : ¬ (rest.length + 1 + 1 + 1 + 1 < 3) := by omega
    have h4 : ¬ (rest.length + 1 + 1 + 1 + 1 < 4) := by omega
    by_cases ha : a = [] <;> simp [ha, h2, h3, h4]

theorem specPadVersion_length (s : List Str) :
    (specPadVersion s).length = max s.length 4 := by
  rcases s with _ | ⟨a, _ | ⟨b, _ | ⟨c, _ | ⟨d, rest⟩⟩⟩⟩ <;>
    simp [specPadVersion]

/-- C9, amended: the version string is split on '.'; an empty or missing
first component becomes "10" and the defaults "2", "999", "999" are
appended only while fewer than 4 components are present (so the result
has exactly 4 components when the raw string splits into at most 4, and
keeps all components otherwise, including empty non-first ones); the
Descriptor's version joins these components with '.', and its
description is synthesized as "<name> <major>.<minor> r<build>" from the
first three components. -/
theorem C9_version_padding_amended (oop : Bool) (fp fv rv : Str)
    (hfp : fp ≠ []) :
    flashVersionNumbers fv = specPadVersion (SplitString fv '.') ∧
    (flashVersionNumbers fv).length = max (SplitString fv '.').length 4 ∧
    ((SplitString fv '.').length ≤ 4 → (flashVersionNumbers fv).length = 4) ∧
    ∃ p rest, ComputePluginsFromCommandLine oop fp fv rv = p :: rest ∧
      p.version = JoinString (flashVersionNumbers fv) '.' ∧
      p.description = kFlashPluginName ++ (" ").data ++
        (flashVersionNumbers fv).headD [] ++ (".").data ++
        (flashVersionNumbers fv).getD 1 [] ++ (" r").data ++
        (flashVersionNumbers fv).getD 2 [] := by
  have heq := flashVersionNumbers_eq_specPadVersion fv
  have hlen : (flashVersionNumbers fv).length =
      max (SplitString fv '.').length 4 := by
    rw [heq]
    exact specPadVersion_length _
  refine ⟨heq, hlen, ?_, ?_⟩
  · intro h4
    rw [hlen]
    omega
  · refine ⟨mkFlashPlugin oop fp fv,
      (if rv = [] then [] else parseEntries oop (SplitString rv ',')),
      ?_, rfl, rfl⟩
    unfold ComputePluginsFromCommandLine
    by_cases hrv : rv = [] <;> simp [hfp, hrv]

/-- Witness for C9's amended claim at version "11.5". -/
theorem C9_version_padding_amended_witness :
    ∃ p rest, ComputePluginsFromCommandLine false (("/f").data)
        (("11.5").data) [] = p :: rest ∧
      p.version = JoinString (flashVersionNumbers (("11.5").data)) '.' ∧
      p.description = kFlashPluginName ++ (" ").data ++
        (flashVersionNumbers (("11.5").data)).headD [] ++ (".").data ++
        (flashVersionNumbers (("11.5").data)).getD 1 [] ++ (" r").data ++
        (flashVersionNumbers (("11.5").data)).getD 2 [] :=
  (C9_version_padding_amended false (("/f").data) (("11.5").data) []
    (by decide)).2.2.2

theorem splitOnChar_append_sep (sep : Char) (path : Str) (h : sep ∉ path) :
    splitOnChar sep (path ++ [sep]) = [path, []] := by
  induction path with
  | nil => simp [splitOnChar]
  | cons c cs ih =>
    have hc : ¬ (c = sep) := fun e => h (by simp [e])
    have h2 : sep ∉ cs := fun hm => h (List.mem_cons_of_mem _ hm)
    simp [splitOnChar, hc, ih h2]

/-- C10: an entry of the form "<path>;" splits on ';' into two parts
whose second part is empty, so it passes the at-least-one-MIME-type
check and yields a Descriptor with exactly one MIME entry: empty
mime-type string, empty file extension, and the plugin's description. -/
theorem C10_trailing_semicolon (oop : Bool) (path : Str)
    (h : ';' ∉ path) :
    SplitString (path ++ [';']) ';' = [trimWS path, []] ∧
    ∃ plugin, parsePluginEntry oop (path ++ [';']) = some plugin ∧
      plugin.mime_types = [⟨[], [], plugin.description⟩] := by
  have hs : SplitString (path ++ [';']) ';' = [trimWS path, []] := by
    unfold SplitString
    rw [splitOnChar_append_sep _ _ h]
    simp [trimWS]
  refine ⟨hs, mkPluginFromParts oop [trimWS path, []], ?_, ?_⟩
  · simp [parsePluginEntry, hs]
  · simp [mkPluginFromParts]

/-- Witness for C10 at the entry "/a/b;". -/
theorem C10_trailing_semicolon_witness :
    SplitString ((("/a/b").data) ++ [';']) ';' =
      [trimWS (("/a/b").data), []] ∧
    ∃ plugin, parsePluginEntry false ((("/a/b").data) ++ [';']) =
        some plugin ∧
      plugin.mime_types = [⟨[], [], plugin.description⟩] :=
  C10_trailing_semicolon false (("/a/b").data) (by decide)

/-! ### C2: constructor-loop infrastructure -/

theorem constructorStep_out (initInt : PepperPluginInfo → Bool)
    (initLib : Str → Bool) (st : RegistryState) (i : Nat)
    (cur : PepperPluginInfo) (h : cur.is_out_of_process = true) :
    constructorStep initInt initLib st i cur = some st := by
  simp [constructorStep, h]

/-- Case analysis of a successful constructor iteration. -/
theorem constructorStep_eq_some (initInt : PepperPluginInfo → Bool)
    (initLib : Str → Bool) (st st1 : RegistryState) (i : Nat)
    (cur : PepperPluginInfo)
    (hstep : constructorStep initInt initLib st i cur = some st1) :
    (cur.is_out_of_process = true ∧ st1 = st) ∨
    (cur.is_out_of_process = false ∧
      mapFind st.live_modules cur.path = none ∧
      ((loadResult initInt initLib cur = true ∧
        st1 = { st with
          live_modules := mapInsert st.live_modules cur.path i,
          preloaded_modules := mapInsert st.preloaded_modules cur.path i,
          trace := st.trace ++ stepEvents initInt initLib i cur }) ∨
       (loadResult initInt initLib cur = false ∧
        ∃ l, eraseValue (mapInsert st.live_modules cur.path i) i = some l ∧
          st1 = { st with
            live_modules := l,
            trace := st.trace ++ stepEvents initInt initLib i cur }))) := by
  cases hoop : cur.is_out_of_process with
  | true =>
    left
    rw [constructorStep_out initInt initLib st i cur hoop] at hstep
    exact ⟨rfl, (Option.some.inj hstep).symm⟩
  | false =>
    right
    unfold constructorStep at hstep
    rw [if_neg (by simp [hoop])] at hstep
    unfold AddLiveModule at hstep
    by_cases hfind : (mapFind st.live_modules cur.path).isSome
    · rw [if_pos hfind] at hstep
      simp at hstep
    · rw [if_neg hfind] at hstep
      have h2 : mapFind st.live_modules cur.path = none :=
        Option.not_isSome_iff_eq_none.mp hfind
      simp only [Option.some_bind] at hstep
      refine ⟨rfl, h2, ?_⟩
      cases hok : loadResult initInt initLib cur with
      | true =>
        rw [hok] at hstep
        rw [if_pos rfl] at hstep
        left
        refine ⟨rfl, ?_⟩
        have h3 := (Option.some.inj hstep).symm
        rw [h3]
        simp [stepEvents, hoop, hok, List.append_assoc]
      | false =>
        rw [hok] at hstep
        rw [if_neg (by simp)] at hstep
        right
        refine ⟨rfl, ?_⟩
        unfold moduleDestroyed PluginModuleDead at hstep
        dsimp only at hstep
        cases he : eraseValue (mapInsert st.live_modules cur.path i) i with
        | none =>
          rw [he] at hstep
          simp at hstep
        | some l =>
          rw [he] at hstep
          simp only [Option.some.injEq] at hstep
          refine ⟨l, rfl, ?_⟩
          rw [← hstep]
          simp [stepEvents, hoop, hok, List.append_assoc]

/-- All step-level facts used by the loop induction: the appended trace,
preservation of existing live/preloaded entries, index bounds, and
absence of a given module identity from the preloaded map. -/
theorem constructorStep_facts (initInt : PepperPluginInfo → Bool)
    (initLib : Str → Bool) (st st1 : RegistryState) (i : Nat)
    (cur : PepperPluginInfo)
    (hstep : constructorStep initInt initLib st i cur = some st1)
    (hlb : ∀ e ∈ st.live_modules, e.2 < i)
    (hpb : ∀ e ∈ st.preloaded_modules, e.2 < i) :
    st1.trace = st.trace ++ stepEvents initInt initLib i cur ∧
    (∀ p m, mapFind st.live_modules p = some m →
      mapFind st1.live_modules p = some m) ∧
    (∀ e ∈ st1.live_modules, e.2 < i + 1) ∧
    (∀ p m m2, mapFind st.live_modules p = some m →
      mapFind st.preloaded_modules p = some m2 →
      mapFind st1.preloaded_modules p = some m2) ∧
    (∀ m, m ≠ i → (∀ q, (q, m) ∉ st.preloaded_modules) →
      ∀ q, (q, m) ∉ st1.preloaded_modules) ∧
    (∀ e ∈ st1.preloaded_modules, e.2 < i + 1) := by
  rcases constructorStep_eq_some initInt initLib st st1 i cur hstep with
    ⟨hoop, rfl⟩ | ⟨hoop, hfind, ⟨hok, rfl⟩ | ⟨hok, l, he, rfl⟩⟩
  · refine ⟨by simp [stepEvents, hoop], fun p m h => h, ?_,
      fun p m m2 h h2 => h2, fun m hmi h q => h q, ?_⟩
    · exact fun e hm => Nat.lt_succ_of_lt (hlb e hm)
    · exact fun e hm => Nat.lt_succ_of_lt (hpb e hm)
  · refine ⟨rfl, ?_, ?_, ?_, ?_, ?_⟩
    · intro p m hm
      have hne : p ≠ cur.path := by
        intro hpe
        rw [hpe, hfind] at hm
        cases hm
      show mapFind (mapInsert st.live_modules cur.path i) p = some m
      rw [mapFind_mapInsert_ne st.live_modules cur.path p i hne]
      exact hm
    · intro e hm
      rcases mem_mapInsert st.live_modules cur.path i e hm with h | h
      · exact Nat.lt_succ_of_lt (hlb e h)
      · rw [h]
        exact Nat.lt_succ_self i
    · intro p m m2 hm hm2
      have hne : p ≠ cur.path := by
        intro hpe
        rw [hpe, hfind] at hm
        cases hm
      show mapFind (mapInsert st.preloaded_modules cur.path i) p = some m2
      rw [mapFind_mapInsert_ne st.preloaded_modules cur.path p i hne]
      exact hm2
    · intro m hmi h q hq
      rcases mem_mapInsert st.preloaded_modules cur.path i (q, m) hq with
        h2 | h2
      · exact h q h2
      · have : m = i := congrArg Prod.snd h2
        exact hmi this
    · intro e hm
      rcases mem_mapInsert st.preloaded_modules cur.path i e hm with h | h
      · exact Nat.lt_succ_of_lt (hpb e h)
      · rw [h]
        exact Nat.lt_succ_self i
  · have hvals : ∀ e ∈ st.live_modules, e.2 ≠ i :=
      fun e hm => Nat.ne_of_lt (hlb e hm)
    have hleq : l = st.live_modules := by
      have h2 := eraseValue_mapInsert st.live_modules cur.path i hfind hvals
      exact (Option.some.inj (h2.symm.trans he)).symm
    subst hleq
    refine ⟨rfl, fun p m h => h, ?_, fun p m m2 h h2 => h2,
      fun m hmi h q => h q, ?_⟩
    · exact fun e hm => Nat.lt_succ_of_lt (hlb e hm)
    · exact fun e hm => Nat.lt_succ_of_lt (hpb e hm)

/-- The two success shapes of one iteration, as equations. -/
theorem constructorStep_ok_eq (initInt : PepperPluginInfo → Bool)
    (initLib : Str → Bool) (st : RegistryState) (i : Nat)
    (cur : PepperPluginInfo) (hoop : cur.is_out_of_process = false)
    (hfind : mapFind st.live_modules cur.path = none)
    (hok : loadResult initInt initLib cur = true) :
    constructorStep initInt initLib st i cur = some { st with
      live_modules := mapInsert st.live_modules cur.path i,
      preloaded_modules := mapInsert st.preloaded_modules cur.path i,
      trace := st.trace ++ stepEvents initInt initLib i cur } := by
  simp [constructorStep, AddLiveModule, hoop, hfind, hok, stepEvents,
    List.append_assoc]

theorem constructorStep_fail_eq (initInt : PepperPluginInfo → Bool)
    (initLib : Str → Bool) (st : RegistryState) (i : Nat)
    (cur : PepperPluginInfo) (hoop : cur.is_out_of_process = false)
    (hfind : mapFind st.live_modules cur.path = none)
    (hok : loadResult initInt initLib cur = false)
    (hvals : ∀ e ∈ st.live_modules, e.2 ≠ i) :
    constructorStep initInt initLib st i cur = some { st with
      trace := st.trace ++ stepEvents initInt initLib i cur } := by
  have he := eraseValue_mapInsert st.live_modules cur.path i hfind hvals
  simp [constructorStep, AddLiveModule, moduleDestroyed, PluginModuleDead,
    hoop, hfind, hok, he, stepEvents, List.append_assoc]

/-- Loop-level facts, by induction over the remaining plugin list: the
produced trace, preservation of already-present live and preloaded
entries, absence of a small module identity from the preloaded map, and
index bounds for all entries. -/
theorem ctorLoop_facts (initInt : PepperPluginInfo → Bool)
    (initLib : Str → Bool) :
    ∀ (rest : List PepperPluginInfo) (st : RegistryState) (i : Nat)
      (st' : RegistryState),
      ctorLoop initInt initLib st i rest = some st' →
      (∀ e ∈ st.live_modules, e.2 < i) →
      (∀ e ∈ st.preloaded_modules, e.2 < i) →
      (st'.trace = st.trace ++ traceOf initInt initLib i rest ∧
       (∀ p m, mapFind st.live_modules p = some m →
         mapFind st'.live_modules p = some m) ∧
       (∀ p m m2, mapFind st.live_modules p = some m →
         mapFind st.preloaded_modules p = some m2 →
         mapFind st'.preloaded_modules p = some m2) ∧
       (∀ m, m < i → (∀ q, (q, m) ∉ st.preloaded_modules) →
         ∀ q, (q, m) ∉ st'.preloaded_modules) ∧
       (∀ e ∈ st'.live_modules, e.2 < i + rest.length) ∧
       (∀ e ∈ st'.preloaded_modules, e.2 < i + rest.length)) := by
  intro rest
  induction rest with
  | nil =>
    intro st i st' h hlb hpb
    simp only [ctorLoop] at h
    obtain rfl := Option.some.inj h
    refine ⟨by simp [traceOf], fun p m hm => hm, fun p m m2 hm hm2 => hm2,
      fun m hmi hq => hq, ?_, ?_⟩
    · simpa using hlb
    · simpa using hpb
  | cons cur rest2 ih =>
    intro st i st' h hlb hpb
    cases hstep : constructorStep initInt initLib st i cur with
    | none => simp [ctorLoop, hstep] at h
    | some st1 =>
      simp only [ctorLoop, hstep] at h
      obtain ⟨htr1, hlm1, hlb1, hpm1, hpa1, hpb1⟩ :=
        constructorStep_facts initInt initLib st st1 i cur hstep hlb hpb
      obtain ⟨htr2, hlm2, hpm2, hpa2, hlb2, hpb2⟩ :=
        ih st1 (i + 1) st' h hlb1 hpb1
      have hn : i + 1 + rest2.length = i + (cur :: rest2).length := by
        simp only [List.length_cons]
        omega
      refine ⟨?_, ?_, ?_, ?_, ?_, ?_⟩
      · rw [htr2, htr1, traceOf]
        simp [List.append_assoc]
      · exact fun p m hm => hlm2 p m (hlm1 p m hm)
      · exact fun p m m2 hm hm2 =>
          hpm2 p m m2 (hlm1 p m hm) (hpm1 p m m2 hm hm2)
      · intro m hmi hq
        exact hpa2 m (Nat.lt_succ_of_lt hmi) (hpa1 m (Nat.ne_of_lt hmi) hq)
      · intro e he
        rw [← hn]
        exact hlb2 e he
      · intro e he
        rw [← hn]
        exact hpb2 e he

/-- When the in-process paths of the remaining descriptors are distinct
and none of them is live yet, the constructor loop never hits the
duplicate-registration DCHECK nor the NOTREACHED of PluginModuleDead:
a load failure only skips that plugin. -/
theorem ctorLoop_total (initInt : PepperPluginInfo → Bool)
    (initLib : Str → Bool) :
    ∀ (rest : List PepperPluginInfo) (st : RegistryState) (i : Nat),
      (∀ e ∈ st.live_modules, e.1 ∉ inProcPaths rest) →
      (inProcPaths rest).Nodup →
      (∀ e ∈ st.live_modules, e.2 < i) →
      ∃ st', ctorLoop initInt initLib st i rest = some st' := by
  intro rest
  induction rest with
  | nil =>
    intro st i _ _ _
    exact ⟨st, rfl⟩
  | cons cur rest2 ih =>
    intro st i h1 h2 h3
    cases hoop : cur.is_out_of_process with
    | true =>
      have hip : inProcPaths (cur :: rest2) = inProcPaths rest2 := by
        simp [inProcPaths, hoop]
      obtain ⟨st', h'⟩ := ih st (i + 1)
        (fun e he => by have := h1 e he; rwa [hip] at this)
        (by rwa [hip] at h2)
        (fun e he => Nat.lt_succ_of_lt (h3 e he))
      exact ⟨st',
        by simp only [ctorLoop,
          constructorStep_out initInt initLib st i cur hoop]; exact h'⟩
    | false =>
      have hip : inProcPaths (cur :: rest2) = cur.path :: inProcPaths rest2 := by
        simp [inProcPaths, hoop]
      have hfind : mapFind st.live_modules cur.path = none := by
        rw [mapFind_eq_none_iff]
        intro e he heq
        have := h1 e he
        rw [hip] at this
        exact this (by rw [heq]; exact List.mem_cons_self _ _)
      have h2' := h2
      rw [hip] at h2'
      have hnodup2 : (inProcPaths rest2).Nodup := (List.nodup_cons.mp h2').2
      have hnotin : cur.path ∉ inProcPaths rest2 := (List.nodup_cons.mp h2').1
      cases hok : loadResult initInt initLib cur with
      | true =>
        have hstep := constructorStep_ok_eq initInt initLib st i cur hoop
          hfind hok
        obtain ⟨st', h'⟩ := ih
          { st with
            live_modules := mapInsert st.live_modules cur.path i,
            preloaded_modules := mapInsert st.preloaded_modules cur.path i,
            trace := st.trace ++ stepEvents initInt initLib i cur } (i + 1)
          (by
            intro e he
            rcases mem_mapInsert st.live_modules cur.path i e he with hm | hm
            · have := h1 e hm
              rw [hip] at this
              exact fun hmem => this (List.mem_cons_of_mem _ hmem)
            · rw [hm]
              exact hnotin)
          hnodup2
          (by
            intro e he
            rcases mem_mapInsert st.live_modules cur.path i e he with hm | hm
            · exact Nat.lt_succ_of_lt (h3 e hm)
            · rw [hm]
              exact Nat.lt_succ_self i)
        exact ⟨st', by simp only [ctorLoop, hstep]; exact h'⟩
      | false =>
        have hvals : ∀ e ∈ st.live_modules, e.2 ≠ i :=
          fun e he => Nat.ne_of_lt (h3 e he)
        have hstep := constructorStep_fail_eq initInt initLib st i cur hoop
          hfind hok hvals
        obtain ⟨st', h'⟩ := ih
          { st with trace := st.trace ++ stepEvents initInt initLib i cur }
          (i + 1)
          (by
            intro e he
            have := h1 e he
            rw [hip] at this
            exact fun hmem => this (List.mem_cons_of_mem _ hmem))
          hnodup2
          (fun e he => Nat.lt_succ_of_lt (h3 e he))
        exact ⟨st', by simp only [ctorLoop, hstep]; exact h'⟩

theorem ctorLoop_append_some (initInt : PepperPluginInfo → Bool)
    (initLib : Str → Bool) :
    ∀ (l1 l2 : List PepperPluginInfo) (st : RegistryState) (i : Nat)
      (st' : RegistryState),
      ctorLoop initInt initLib st i (l1 ++ l2) = some st' →
      ∃ stm, ctorLoop initInt initLib st i l1 = some stm ∧
        ctorLoop initInt initLib stm (i + l1.length) l2 = some st' := by
  intro l1
  induction l1 with
  | nil =>
    intro l2 st i st' h
    exact ⟨st, rfl, by simpa using h⟩
  | cons cur rest ih =>
    intro l2 st i st' h
    cases hstep : constructorStep initInt initLib st i cur with
    | none => simp [ctorLoop, hstep] at h
    | some st1 =>
      simp only [List.cons_append, ctorLoop, hstep] at h
      obtain ⟨stm, ha, hb⟩ := ih l2 st1 (i + 1) st' h
      refine ⟨stm, ?_, ?_⟩
      · simp only [ctorLoop, hstep]
        exact ha
      · have hn : i + (cur :: rest).length = i + 1 + rest.length := by
          simp only [List.length_cons]
          omega
        rw [hn]
        exact hb

theorem evModule_stepEvents (initInt : PepperPluginInfo → Bool)
    (initLib : Str → Bool) (i : Nat) (cur : PepperPluginInfo)
    (ev : RegistryEvent) (h : ev ∈ stepEvents initInt initLib i cur) :
    evModule ev = i := by
  unfold stepEvents at h
  by_cases hoop : cur.is_out_of_process
  · rw [if_pos hoop] at h
    exact absurd h (List.not_mem_nil ev)
  · rw [if_neg hoop] at h
    rcases List.mem_cons.mp h with rfl | h
    · rfl
    rcases List.mem_cons.mp h with rfl | h
    · rfl
    by_cases hok : loadResult initInt initLib cur
    · rw [if_pos hok] at h
      rcases List.mem_cons.mp h with rfl | h
      · rfl
      · exact absurd h (List.not_mem_nil ev)
    · rw [if_neg hok] at h
      rcases List.mem_cons.mp h with rfl | h
      · rfl
      · exact absurd h (List.not_mem_nil ev)

theorem evModule_traceOf (initInt : PepperPluginInfo → Bool)
    (initLib : Str → Bool) :
    ∀ (l : List PepperPluginInfo) (i : Nat) (ev : RegistryEvent),
      ev ∈ traceOf initInt initLib i l →
      i ≤ evModule ev ∧ evModule ev < i + l.length := by
  intro l
  induction l with
  | nil =>
    intro i ev h
    simp [traceOf] at h
  | cons cur rest ih =>
    intro i ev h
    simp only [traceOf] at h
    rcases List.mem_append.mp h with h | h
    · have heq := evModule_stepEvents initInt initLib i cur ev h
      rw [heq]
      constructor
      · exact Nat.le_refl i
      · simp only [List.length_cons]
        omega
    · obtain ⟨ha, hb⟩ := ih (i + 1) ev h
      constructor
      · omega
      · simp only [List.length_cons]
        omega

theorem traceOf_append (initInt : PepperPluginInfo → Bool)
    (initLib : Str → Bool) :
    ∀ (l1 l2 : List PepperPluginInfo) (i : Nat),
      traceOf initInt initLib i (l1 ++ l2) =
        traceOf initInt initLib i l1 ++
          traceOf initInt initLib (i + l1.length) l2 := by
  intro l1
  induction l1 with
  | nil =>
    intro l2 i
    simp [traceOf]
  | cons cur rest ih =>
    intro l2 i
    have hn : i + 1 + rest.length = i + (rest.length + 1) := by omega
    simp only [List.cons_append, traceOf, List.length_cons, List.append_eq]
    rw [ih, hn, List.append_assoc]

theorem list_get?_decomp {α : Type _} :
    ∀ (l : List α) (i : Nat) (a : α), l.get? i = some a →
      ∃ l1 l2, l = l1 ++ a :: l2 ∧ l1.length = i := by
  intro l
  induction l with
  | nil =>
    intro i a h
    simp at h
  | cons x rest ih =>
    intro i a h
    cases i with
    | zero =>
      simp only [List.get?] at h
      obtain rfl := Option.some.inj h
      exact ⟨[], rest, rfl, rfl⟩
    | succ n =>
      simp only [List.get?] at h
      obtain ⟨l1, l2, hdec, hlen⟩ := ih n a h
      exact ⟨x :: l1, l2, by rw [hdec]; rfl, by simp [hlen]⟩

/-- C2: during registry construction over the merged list, every
out-of-process Descriptor is skipped entirely (no event concerns its
module); every in-process Descriptor has its module registered in the
live map immediately before its load attempt; on load failure the
module is never inserted into the preloaded map (no preloadInsert event
and no preloaded entry), the live registration is retained until the
module object is destroyed (the moduleDead event comes after the
registration) and processing continues; on load success the module is
inserted into the preloaded map keyed by the Descriptor's path and is
never destroyed during construction. With distinct in-process paths the
whole construction succeeds (load failures never abort it). -/
theorem C2_registry_construction (initInt : PepperPluginInfo → Bool)
    (initLib : Str → Bool) (builtins : List PepperPluginInfo) (oop : Bool)
    (fp fv rv : Str) (plugins : List PepperPluginInfo)
    (hp : plugins = ComputeList builtins oop fp fv rv) :
    ((inProcPaths plugins).Nodup → ∃ st,
      PepperPluginRegistryCtor initInt initLib builtins oop fp fv rv =
        some st) ∧
    (∀ st i cur,
      PepperPluginRegistryCtor initInt initLib builtins oop fp fv rv =
        some st →
      plugins.get? i = some cur →
      ((cur.is_out_of_process = true →
        ∀ ev ∈ st.trace, evModule ev ≠ i) ∧
       (cur.is_out_of_process = false →
        ∃ t1 t2, st.trace = t1 ++ RegistryEvent.addLive cur.path i ::
            RegistryEvent.loadAttempt cur.is_internal i
              (loadResult initInt initLib cur) :: t2 ∧
          (∀ ev ∈ t1, evModule ev ≠ i) ∧
          (loadResult initInt initLib cur = false →
            RegistryEvent.moduleDead i ∈ t2 ∧
            (∀ q, RegistryEvent.preloadInsert q i ∉ st.trace) ∧
            (∀ q, (q, i) ∉ st.preloaded_modules)) ∧
          (loadResult initInt initLib cur = true →
            RegistryEvent.preloadInsert cur.path i ∈ st.trace ∧
            RegistryEvent.moduleDead i ∉ st.trace ∧
            mapFind st.live_modules cur.path = some i ∧
            mapFind st.preloaded_modules cur.path = some i)))) := by
  constructor
  · intro hnd
    unfold PepperPluginRegistryCtor
    rw [← hp]
    exact ctorLoop_total initInt initLib plugins _ 0 (by simp) hnd (by simp)
  · intro st i cur hctor hget
    unfold PepperPluginRegistryCtor at hctor
    rw [← hp] at hctor
    obtain ⟨l1, l2, hdec, hlen⟩ := list_get?_decomp plugins i cur hget
    rw [hdec] at hctor
    obtain ⟨stA, hA, hrest⟩ :=
      ctorLoop_append_some initInt initLib l1 (cur :: l2) _ 0 st hctor
    rw [Nat.zero_add, hlen] at hrest
    obtain ⟨htrA, _, _, _, hlbA', hpbA'⟩ :=
      ctorLoop_facts initInt initLib l1 _ 0 stA hA (by simp) (by simp)
    have htrA2 : stA.trace = traceOf initInt initLib 0 l1 := by
      simpa using htrA
    have hlbA : ∀ e ∈ stA.live_modules, e.2 < i := by
      intro e he
      have h5 := hlbA' e he
      rw [Nat.zero_add, hlen] at h5
      exact h5
    have hpbA : ∀ e ∈ stA.preloaded_modules, e.2 < i := by
      intro e he
      have h5 := hpbA' e he
      rw [Nat.zero_add, hlen] at h5
      exact h5
    cases hstep : constructorStep initInt initLib stA i cur with
    | none => simp [ctorLoop, hstep] at hrest
    | some stB =>
      simp only [ctorLoop, hstep] at hrest
      obtain ⟨htrB, hlmB, hlbB, hpmB, hpaB, hpbB⟩ :=
        constructorStep_facts initInt initLib stA stB i cur hstep hlbA hpbA
      obtain ⟨htrC, hlmC, hpmC, hpaC, _, _⟩ :=
        ctorLoop_facts initInt initLib l2 stB (i + 1) st hrest hlbB hpbB
      have htrace : st.trace = traceOf initInt initLib 0 l1 ++
          stepEvents initInt initLib i cur ++
          traceOf initInt initLib (i + 1) l2 := by
        rw [htrC, htrB, htrA2]
      have hmemid : ∀ ev, ev ∈ st.trace → evModule ev = i →
          ev ∈ stepEvents initInt initLib i cur := by
        intro ev hev hid
        rw [htrace] at hev
        rcases List.mem_append.mp hev with h | h
        · rcases List.mem_append.mp h with h2 | h2
          · have h6 := (evModule_traceOf initInt initLib l1 0 ev h2).2
            rw [Nat.zero_add, hlen, hid] at h6
            exact absurd h6 (lt_irrefl i)
          · exact h2
        · have h6 := (evModule_traceOf initInt initLib l2 (i + 1) ev h).1
          rw [hid] at h6
          omega
      refine ⟨?_, ?_⟩
      · intro hoop ev hev hid
        have h7 := hmemid ev hev hid
        rw [show stepEvents initInt initLib i cur = [] from
          by simp [stepEvents, hoop]] at h7
        exact absurd h7 (List.not_mem_nil ev)
      · intro hoop
        have hse : stepEvents initInt initLib i cur =
            RegistryEvent.addLive cur.path i ::
            RegistryEvent.loadAttempt cur.is_internal i
              (loadResult initInt initLib cur) ::
            (if loadResult initInt initLib cur then
              [RegistryEvent.preloadInsert cur.path i]
             else [RegistryEvent.moduleDead i]) := by
          simp [stepEvents, hoop]
        refine ⟨traceOf initInt initLib 0 l1,
          (if loadResult initInt initLib cur then
            [RegistryEvent.preloadInsert cur.path i]
           else [RegistryEvent.moduleDead i]) ++
            traceOf initInt initLib (i + 1) l2, ?_, ?_, ?_, ?_⟩
        · rw [htrace, hse]
          simp [List.append_assoc]
        · intro ev hev hid
          have h6 := (evModule_traceOf initInt initLib l1 0 ev hev).2
          rw [Nat.zero_add, hlen, hid] at h6
          exact absurd h6 (lt_irrefl i)
        · intro hok
          rcases constructorStep_eq_some initInt initLib stA stB i cur hstep
            with ⟨h1, _⟩ | ⟨_, hfind, ⟨hok2, _⟩ | ⟨_, l, he, hBeq⟩⟩
          · rw [hoop] at h1
            cases h1
          · rw [hok] at hok2
            cases hok2
          refine ⟨?_, ?_, ?_⟩
          · simp [hok]
          · intro q hq
            have h7 := hmemid (RegistryEvent.preloadInsert q i) hq rfl
            rw [hse] at h7
            simp [hok] at h7
          · intro q hq
            have habs : ∀ q2 : Str, (q2, i) ∉ stB.preloaded_modules := by
              intro q2 hq2
              rw [hBeq] at hq2
              have h8 := hpbA (q2, i) hq2
              exact absurd h8 (lt_irrefl i)
            exact hpaC i (Nat.lt_succ_self i) habs q hq
        · intro hok
          rcases constructorStep_eq_some initInt initLib stA stB i cur hstep
            with ⟨h1, _⟩ | ⟨_, hfind, ⟨_, hBeq⟩ | ⟨hokf, _⟩⟩
          · rw [hoop] at h1
            cases h1
          · have hfb : mapFind stB.live_modules cur.path = some i := by
              rw [hBeq]
              exact mapFind_mapInsert_self stA.live_modules cur.path i
            have hfb2 : mapFind stB.preloaded_modules cur.path = some i := by
              rw [hBeq]
              exact mapFind_mapInsert_self stA.preloaded_modules cur.path i
            refine ⟨?_, ?_, ?_, ?_⟩
            · rw [htrace, hse]
              simp [hok]
            · intro hdead
              have h7 := hmemid (RegistryEvent.moduleDead i) hdead rfl
              rw [hse] at h7
              simp [hok] at h7
            · exact hlmC cur.path i hfb
            · exact hpmC cur.path i i hfb hfb2
          · rw [hok] at hokf
            cases hokf

/-- Witness for C2: two built-ins at "/a" and "/b" where loading "/b"
fails; construction succeeds as a whole and the failed module (identity
1) is never in the preloaded map. -/
theorem C2_registry_construction_witness :
    PepperPluginRegistryCtor (fun _ => true) (fun p => !(p == ("/b").data))
        [{ path := ("/a").data }, { path := ("/b").data }] false [] [] [] ≠
      none ∧
    ((("/b").data, 1) ∉
      (RegistryState.mk
        [{ path := ("/a").data }, { path := ("/b").data }]
        [((("/a").data), 0)] [((("/a").data), 0)]
        [RegistryEvent.addLive (("/a").data) 0,
         RegistryEvent.loadAttempt false 0 true,
         RegistryEvent.preloadInsert (("/a").data) 0,
         RegistryEvent.addLive (("/b").data) 1,
         RegistryEvent.loadAttempt false 1 false,
         RegistryEvent.moduleDead 1]).preloaded_modules) := by
  constructor
  · obtain ⟨st, hst⟩ := (C2_registry_construction (fun _ => true)
      (fun p => !(p == ("/b").data))
      [{ path := ("/a").data }, { path := ("/b").data }] false [] [] []
      _ rfl).1 (by decide)
    rw [hst]
    simp
  · obtain ⟨t1, t2, htr, ht1, hfail, hok⟩ :=
      ((C2_registry_construction (fun _ => true)
        (fun p => !(p == ("/b").data))
        [{ path := ("/a").data }, { path := ("/b").data }] false [] [] []
        _ rfl).2
        (RegistryState.mk
          [{ path := ("/a").data }, { path := ("/b").data }]
          [((("/a").data), 0)] [((("/a").data), 0)]
          [RegistryEvent.addLive (("/a").data) 0,
           RegistryEvent.loadAttempt false 0 true,
           RegistryEvent.preloadInsert (("/a").data) 0,
           RegistryEvent.addLive (("/b").data) 1,
           RegistryEvent.loadAttempt false 1 false,
           RegistryEvent.moduleDead 1])
        1 { path := ("/b").data } (by decide) (by decide)).2 rfl
    exact (hfail (by decide)).2.2 (("/b").data)
